import Mathlib

/-!
Verification of `setup.py`, the one-shot CI/CD bootstrapper of this repository.

The script is shallowly embedded below.  Pure string manipulation (the slug,
`str.strip`, `str.replace`, the regex-based bundle-id extraction, the PATH
rebuild of `_ensure_path`) is translated to executable functions over
`List Char`; documents and commands are lists of characters.  Python's `\w`,
`\s`, `\d` character classes and `str.lower`/`str.strip` are modelled on their
ASCII fragment.  Side-effecting procedures (`run`, `check_node_version`,
`read_bundle_ids`, `setup_firebase`) become functions of the relevant
environment facts (exit codes, captured stdout, tool availability, file
existence) returning either values or explicit effect traces.
-/

/-! ### ASCII models of Python string primitives -/

/-- Python whitespace (`\s`, and the default `str.strip` set): space, tab,
newline, carriage return, vertical tab, form feed (ASCII fragment). -/
def pySpace (c : Char) : Bool :=
  c = ' ' || c = '\t' || c = '\n' || c = '\r' || c = '\x0b' || c = '\x0c'

/-- The character class `[\w.]` of the two bundle-id regexes in
`read_bundle_ids`: word characters (letters, digits, underscore; ASCII
fragment of `\w`) and the dot. -/
def pyWordDot (c : Char) : Bool :=
  c.isAlphanum || c = '_' || c = '.'

/-- Python `str.strip()`: remove leading and trailing whitespace. -/
def pyStrip (s : List Char) : List Char :=
  ((s.dropWhile pySpace).reverse.dropWhile pySpace).reverse

/-- Python `str.lower()` (ASCII fragment), as used on the game name. -/
def pyLower (s : List Char) : List Char :=
  s.map Char.toLower

/-- `headMatch pat s` holds when `pat` is an initial segment of `s`
(matching a literal regex fragment at the current position). -/
def headMatch : List Char → List Char → Bool
  | [], _ => true
  | _ :: _, [] => false
  | p :: ps, d :: ds => p == d && headMatch ps ds

/-- Python `str.replace(old, new)`: replace non-overlapping occurrences of
`old` left to right.  (The script only uses `old = " "`.) -/
def pyReplace (old new : List Char) : List Char → List Char
  | [] => []
  | c :: rest =>
    if h : old ≠ [] ∧ headMatch old (c :: rest) = true then
      new ++ pyReplace old new ((c :: rest).drop old.length)
    else
      c :: pyReplace old new rest
termination_by s => s.length
decreasing_by
  · simp only [List.length_drop, List.length_cons]
    have hlen : 1 ≤ old.length := by
      cases old with
      | nil => exact absurd rfl h.1
      | cons _ _ => simp
    omega
  · simp

/-! ### `run` (setup.py lines 23-31), capturing branch

`run(cmd, capture=True, check)` runs the command, and on `check` with a
non-zero exit code returns `None`; otherwise it returns the stripped stdout.
The external command's outcome is modelled as a `CmdResult`. -/

/-- Outcome of a shell command: the model of `subprocess.run(...,
capture_output=True, text=True)`. -/
structure CmdResult where
  returncode : Int
  stdout : List Char
deriving DecidableEq

/-- `run(cmd, capture=True, check)` restricted to its pure decision:
`None` when `check and result.returncode != 0`, else `result.stdout.strip()`. -/
def run_capture (res : CmdResult) (check : Bool) : Option (List Char) :=
  if check ∧ res.returncode ≠ 0 then none
  else some (pyStrip res.stdout)

/-- The login-fallback test in `check_prerequisites` (lines 97-98):
`result = run("firebase projects:list", capture=True, check=False)` followed
by `if result is None`. -/
def login_fallback_taken (res : CmdResult) : Bool :=
  (run_capture res false).isNone

/-! ### `_ensure_path` (setup.py lines 34-47)

`os.environ["PATH"]` is a colon-separated string.  `current.split(os.pathsep)`
and `os.pathsep.join(...)` are embedded as `splitOnColon` / `joinColon`
(POSIX `os.pathsep = ":"`).  The expansion `os.path.expanduser
("~/.npm-global/bin")` depends on the ambient `HOME`, so it is a parameter. -/

/-- Python `current.split(":")` (keeps empty pieces; `"".split(":") = [""]`). -/
def splitOnColon : List Char → List (List Char)
  | [] => [[]]
  | c :: rest =>
    if c = ':' then [] :: splitOnColon rest
    else
      match splitOnColon rest with
      | [] => [[c]]
      | p :: ps => (c :: p) :: ps

/-- Python `":".join(parts)`. -/
def joinColon : List (List Char) → List Char
  | [] => []
  | [p] => p
  | p :: q :: ps => p ++ ':' :: joinColon (q :: ps)

/-- `priority = ["/opt/homebrew/bin", "/opt/homebrew/sbin"]` (line 36). -/
def priorityDirs : List (List Char) :=
  ["/opt/homebrew/bin".toList, "/opt/homebrew/sbin".toList]

/-- First element of `extra` (line 37). -/
def usrLocalBin : List Char := "/usr/local/bin".toList

/-- `extra = ["/usr/local/bin", os.path.expanduser("~/.npm-global/bin")]`
(line 37); the expanded npm directory is the parameter. -/
def extraDirs (npmGlobalBin : List Char) : List (List Char) :=
  [usrLocalBin, npmGlobalBin]

/-- One iteration of the loop `for p in extra: if p not in parts:
parts.append(p)` (lines 42-44). -/
def addIfAbsent (acc : List (List Char)) (p : List Char) : List (List Char) :=
  if p ∈ acc then acc else acc ++ [p]

/-- `_ensure_path` (lines 34-45) as a function from the current `PATH`
string to the new one. -/
def ensure_path (npmGlobalBin current : List Char) : List Char :=
  let parts0 := splitOnColon current
  let parts1 := parts0.filter (fun p => decide (p ∉ priorityDirs))
  let parts2 := (extraDirs npmGlobalBin).foldl addIfAbsent parts1
  joinColon (priorityDirs ++ parts2)

/-! ### `check_node_version` (setup.py lines 54-75) -/

/-- What `check_node_version` does: return normally, attempt a Homebrew
upgrade of node, or `sys.exit(code)`. -/
inductive NodeCheckOutcome where
  | proceed
  | upgradeViaBrew
  | fatalExit (code : Nat)
deriving DecidableEq

/-- `int(m.group(1))` for the digits captured by `\d+`. -/
def digitsToNat (ds : List Char) : Nat :=
  ds.foldl (fun n c => 10 * n + (c.toNat - 48)) 0

/-- `re.match(r"v(\d+)", version_str)` followed by `int(m.group(1))`:
anchored at the start, a literal `v`, then a maximal nonempty digit run. -/
def parseVersionMajor (s : List Char) : Option Nat :=
  match s with
  | [] => none
  | c :: rest =>
    if c = 'v' then
      let ds := rest.takeWhile Char.isDigit
      if ds.isEmpty then none else some (digitsToNat ds)
    else none

/-- `check_node_version` (lines 54-75): `node` is `shutil.which("node")`,
`nodeVersionResult` the outcome of `node --version`, `brew` whether
`command_exists("brew")`. -/
def check_node_version (node : Option String) (nodeVersionResult : CmdResult)
    (brew : Bool) : NodeCheckOutcome :=
  match node with
  | none => NodeCheckOutcome.proceed
  | some _ =>
    match run_capture nodeVersionResult false with
    | none => NodeCheckOutcome.proceed
    | some version_str =>
      if version_str.isEmpty then NodeCheckOutcome.proceed
      else
        match parseVersionMajor version_str with
        | none => NodeCheckOutcome.proceed
        | some major =>
          if major ≥ 20 then NodeCheckOutcome.proceed
          else if brew then NodeCheckOutcome.upgradeViaBrew
          else NodeCheckOutcome.fatalExit 1

/-! ### `read_bundle_ids` (setup.py lines 103-129)

The two regexes are `applicationIdentifier:.*?iPhone:\s*([\w.]+)` and
`applicationIdentifier:.*?Android:\s*([\w.]+)`, searched with `re.DOTALL`.
`re.search` with a leading literal matches at the first occurrence of
`applicationIdentifier:`; the lazy `.*?` then selects the first later
position where the platform key is followed by optional whitespace and a
nonempty word/dot run; the greedy `([\w.]+)` captures the maximal run. -/

/-- `"applicationIdentifier:"`, the leading literal of both regexes. -/
def appIdMarker : List Char := "applicationIdentifier:".toList

/-- `"iPhone:"` as in the first regex. -/
def iPhoneKey : List Char := "iPhone:".toList

/-- `"Android:"` as in the second regex. -/
def androidKey : List Char := "Android:".toList

/-- The text captured by `\s*([\w.]+)` when the platform key matches at the
head of suffix `s`: skip whitespace, take the maximal word/dot run. -/
def keyCapture (key s : List Char) : List Char :=
  ((s.drop key.length).dropWhile pySpace).takeWhile pyWordDot

/-- Does `<key>\s*[\w.]+` match at the head of suffix `s`?  (The whitespace
class and the word/dot class are disjoint, so no backtracking arises.) -/
def keyQual (key s : List Char) : Bool :=
  headMatch key s && !(keyCapture key s).isEmpty

/-- Scan for the first suffix where `<key>\s*([\w.]+)` matches and return the
capture: the lazy `.*?` of the regex. -/
def findKeyCapture (key : List Char) : List Char → Option (List Char)
  | [] => if keyQual key [] then some (keyCapture key []) else none
  | c :: rest =>
    if keyQual key (c :: rest) then some (keyCapture key (c :: rest))
    else findKeyCapture key rest

/-- Scan for the first occurrence of `pat` (the leading literal of the
regex) and return the rest of the document after it. -/
def findAfterMarker (pat : List Char) : List Char → Option (List Char)
  | [] => if headMatch pat [] then some [] else none
  | c :: rest =>
    if headMatch pat (c :: rest) then some ((c :: rest).drop pat.length)
    else findAfterMarker pat rest

/-- `re.search(r"applicationIdentifier:.*?<key>\s*([\w.]+)", content,
re.DOTALL)` followed by `m.group(1).strip()` (lines 116-122). -/
def extractId (content key : List Char) : Option (List Char) :=
  match findAfterMarker appIdMarker content with
  | none => none
  | some s => (findKeyCapture key s).map pyStrip

/-- The parsing step of `read_bundle_ids` (lines 110-129): the pair
`(ios_id, android_id)`. -/
def read_bundle_ids_parse (content : List Char) :
    Option (List Char) × Option (List Char) :=
  (extractId content iPhoneKey, extractId content androidKey)

/-- Specification-side predicate: the pattern `pat` occurs (as a literal
substring) at index `i` of `doc`. -/
abbrev occursAt (pat doc : List Char) (i : Nat) : Prop :=
  headMatch pat (doc.drop i) = true

/-- Specification-side predicate: `<key>\s*[\w.]+` matches at index `j` of
`doc` — the key occurs there, followed by optional whitespace and a nonempty
run of word characters and dots. -/
abbrev qualAt (key doc : List Char) (j : Nat) : Prop :=
  keyQual key (doc.drop j) = true

/-- What `read_bundle_ids` does overall: `sys.exit(code)` or return ids. -/
inductive ReadBundleOutcome where
  | fatalExit (code : Nat)
  | ids (ios android : Option (List Char))
deriving DecidableEq

/-- `read_bundle_ids` (lines 103-129): if the settings document is missing,
print an error and `sys.exit(1)` (lines 106-108); otherwise parse. -/
def read_bundle_ids (settingsFileExists : Bool) (content : List Char) :
    ReadBundleOutcome :=
  if settingsFileExists then
    ReadBundleOutcome.ids (read_bundle_ids_parse content).1
      (read_bundle_ids_parse content).2
  else ReadBundleOutcome.fatalExit 1

/-! ### `setup_firebase` (setup.py lines 132-184)

The orchestrator only prints and invokes external commands (every `run` here
uses `check=False`), so it is embedded as the list of effects it performs, in
order.  Each constructor of `Eff` carries the parameters of the
corresponding call site. -/

/-- Python truthiness of an optional string (`if ios_bundle_id:`). -/
def optTruthy : Option String → Bool
  | none => false
  | some s => !s.isEmpty

/-- `CI_SERVICE_ACCOUNT` (line 20). -/
def CI_SERVICE_ACCOUNT : String :=
  "ci-distribution@hcgamesfirebase.iam.gserviceaccount.com"

/-- `Path("Assets") / "Settings"` (line 154), POSIX rendering. -/
def settingsDir : String := "Assets/Settings"

/-- One observable step of `setup_firebase`. -/
inductive Eff where
  | printMsg (s : String)
  | createProject (projectId displayName : String)
  | createIosApp (bundleId projectId : String)
  | createAndroidApp (packageName projectId : String)
  | makeDir (path : String)
  | sdkconfigIos (projectId outPath : String)
  | sdkconfigAndroid (projectId outPath : String)
  | gcloudAddIamBinding (projectId member role : String)
deriving DecidableEq

/-- Does an effect register an Android app (`firebase apps:create android`)? -/
def Eff.isAndroidCreate : Eff → Bool
  | Eff.createAndroidApp _ _ => true
  | _ => false

/-- `setup_firebase` (lines 132-184) as its ordered effect trace.
`gcloudAvailable` is `command_exists("gcloud")`. -/
def setup_firebase (game_name project_id : String)
    (ios_bundle_id android_bundle_id : Option String)
    (gcloudAvailable : Bool) : List Eff :=
  [Eff.printMsg ("\nCreating Firebase project: " ++ project_id ++ "..."),
   Eff.createProject project_id game_name]
  ++ (if optTruthy ios_bundle_id then
        [Eff.printMsg ("Registering iOS app (" ++ ios_bundle_id.getD "" ++ ")..."),
         Eff.createIosApp (ios_bundle_id.getD "") project_id]
      else [])
  ++ (if optTruthy android_bundle_id then
        [Eff.printMsg ("Registering Android app (" ++ android_bundle_id.getD "" ++ ")..."),
         Eff.createAndroidApp (android_bundle_id.getD "") project_id]
      else [])
  ++ [Eff.makeDir settingsDir,
      Eff.printMsg "Downloading GoogleService-Info.plist...",
      Eff.sdkconfigIos project_id (settingsDir ++ "/GoogleService-Info.plist"),
      Eff.printMsg "Downloading google-services.json...",
      Eff.sdkconfigAndroid project_id (settingsDir ++ "/google-services.json"),
      Eff.printMsg "Adding CI service account to Firebase project..."]
  ++ (if gcloudAvailable then
        [Eff.gcloudAddIamBinding project_id
          ("serviceAccount:" ++ CI_SERVICE_ACCOUNT)
          "roles/firebaseappdistro.admin"]
      else
        [Eff.printMsg ("Warning: gcloud not found. Add " ++ CI_SERVICE_ACCOUNT
          ++ " manually in Firebase Console with App Distribution Admin role.")])

/-! ### Slug derivation in `main` (setup.py lines 299-300) -/

/-- `project_id = "hcg-" + game_name.lower().replace(" ", "-")` (line 300). -/
def project_slug (game_name : List Char) : List Char :=
  "hcg-".toList ++ pyReplace [' '] ['-'] (pyLower game_name)

/-! ## Theorems -/

/-! ### Claim C6 and C10: the capturing Command Runner -/

/-- Claim C6: with `capture=True`, `run` returns the captured standard output
trimmed of surrounding whitespace whenever the command exits with code zero,
and returns the `None` sentinel exactly when `check` is true and the exit
code is non-zero. -/
theorem run_capture_spec (res : CmdResult) (check : Bool) :
    (res.returncode = 0 → run_capture res check = some (pyStrip res.stdout))
    ∧ (run_capture res check = none ↔ (check = true ∧ res.returncode ≠ 0)) := by
  constructor
  · intro h
    simp [run_capture, h]
  · unfold run_capture
    by_cases hc : check = true
    · by_cases hr : res.returncode = 0 <;> simp [hc, hr]
    · have : check = false := by
        cases check with
        | false => rfl
        | true => exact absurd rfl hc
      simp [this]

/-- Witness for C6 at a concrete command outcome. -/
theorem run_capture_spec_witness :
    run_capture ⟨0, " ok ".toList⟩ true = some (pyStrip " ok ".toList) :=
  (run_capture_spec ⟨0, " ok ".toList⟩ true).1 rfl

/-- Claim C10: with `capture=True, check=False`, `run` always returns the
trimmed stdout — never `None` — even on a non-zero exit code, so the
`if result is None` login-fallback branch of `check_prerequisites` is
unreachable. -/
theorem run_capture_nocheck_total :
    (∀ res : CmdResult, run_capture res false = some (pyStrip res.stdout))
    ∧ (∀ res : CmdResult, run_capture res false ≠ none)
    ∧ (∀ res : CmdResult, login_fallback_taken res = false) := by
  refine ⟨fun res => by simp [run_capture], fun res => by simp [run_capture],
    fun res => by simp [login_fallback_taken, run_capture]⟩

/-! ### Claim C8: missing settings document is fatal -/

/-- Claim C8: when the settings document at its fixed relative path does not
exist, `read_bundle_ids` terminates the process with exit status 1 (no ids
are produced, so no later provisioning step can run in this process). -/
theorem read_bundle_ids_missing_file_fatal :
    ∀ content : List Char,
      read_bundle_ids false content = ReadBundleOutcome.fatalExit 1 :=
  fun _ => rfl

/-! ### Claim C9: the slug derivation -/

/-- `str.replace` with the one-character pattern `" "` is the pointwise
substitution of hyphens for spaces. -/
theorem pyReplace_space_hyphen (s : List Char) :
    pyReplace [' '] ['-'] s = s.map (fun c => if c = ' ' then '-' else c) := by
  induction s with
  | nil =>
    rw [pyReplace]
    rfl
  | cons c rest ih =>
    by_cases hc : c = ' '
    · subst hc
      rw [pyReplace]
      simp [headMatch, ih]
    · rw [pyReplace]
      have hb : (' ' == c) = false := by
        simp [Ne.symm hc]
      simp [headMatch, hb, ih, hc]

/-- Claim C9: slug derivation is the pure function prefixing `"hcg-"`,
lowercasing, and replacing spaces with hyphens; in particular
`"Space Game" ↦ "hcg-space-game"` and `"ALLCAPS" ↦ "hcg-allcaps"`. -/
theorem project_slug_spec :
    (∀ game_name : List Char,
      project_slug game_name =
        "hcg-".toList
          ++ game_name.map (fun c =>
                if c.toLower = ' ' then '-' else c.toLower))
    ∧ project_slug "Space Game".toList = "hcg-space-game".toList
    ∧ project_slug "ALLCAPS".toList = "hcg-allcaps".toList := by
  refine ⟨fun game_name => ?_, ?_, ?_⟩
  · unfold project_slug pyLower
    rw [pyReplace_space_hyphen, List.map_map]
    rfl
  · unfold project_slug pyLower
    rw [pyReplace_space_hyphen]
    decide
  · unfold project_slug pyLower
    rw [pyReplace_space_hyphen]
    decide

/-! ### Claim C5: downloads are unconditional, output dir ensured first -/

/-- Claim C5: in every run of `setup_firebase`, the trace contains — in this
order and contiguously — the creation of the local output directory, the iOS
config download, and the Android config download, regardless of the bundle
ids (hence of whether registration ran) and of gcloud availability. -/
theorem setup_firebase_downloads_unconditional (g p : String)
    (ios android : Option String) (gc : Bool) :
    ∃ pre post,
      setup_firebase g p ios android gc =
        pre ++ [Eff.makeDir settingsDir,
                Eff.printMsg "Downloading GoogleService-Info.plist...",
                Eff.sdkconfigIos p (settingsDir ++ "/GoogleService-Info.plist"),
                Eff.printMsg "Downloading google-services.json...",
                Eff.sdkconfigAndroid p (settingsDir ++ "/google-services.json"),
                Eff.printMsg "Adding CI service account to Firebase project..."]
          ++ post := by
  refine ⟨[Eff.printMsg ("\nCreating Firebase project: " ++ p ++ "..."),
           Eff.createProject p g]
          ++ (if optTruthy ios then
                [Eff.printMsg ("Registering iOS app (" ++ ios.getD "" ++ ")..."),
                 Eff.createIosApp (ios.getD "") p]
              else [])
          ++ (if optTruthy android then
                [Eff.printMsg ("Registering Android app (" ++ android.getD "" ++ ")..."),
                 Eff.createAndroidApp (android.getD "") p]
              else []),
          (if gc then
            [Eff.gcloudAddIamBinding p
              ("serviceAccount:" ++ CI_SERVICE_ACCOUNT)
              "roles/firebaseappdistro.admin"]
          else
            [Eff.printMsg ("Warning: gcloud not found. Add " ++ CI_SERVICE_ACCOUNT
              ++ " manually in Firebase Console with App Distribution Admin role.")]),
          ?_⟩
  simp [setup_firebase, List.append_assoc]

/-! ### Claim C4 (corrected): Android-absent run -/

/-- Counterexample to C4 as stated: with the Android identifier absent, the
orchestrator still performs the Android config download — it is not
skipped. -/
theorem setup_firebase_android_download_not_skipped :
    Eff.sdkconfigAndroid "hcg-my-game" "Assets/Settings/google-services.json"
      ∈ setup_firebase "My Game" "hcg-my-game" (some "com.x.mygame") none true := by
  decide

/-- Claim C4 as amended: when the Android identifier is absent, the Android
app registration is skipped, while the iOS registration (when the iOS
identifier is present), the iOS config download — and, unlike the original
claim, also the Android config download — all still occur. -/
theorem setup_firebase_android_absent (g p : String)
    (ios android : Option String) (gc : Bool)
    (h : optTruthy android = false) :
    (∀ e ∈ setup_firebase g p ios android gc, e.isAndroidCreate = false)
    ∧ (optTruthy ios = true →
        Eff.createIosApp (ios.getD "") p ∈ setup_firebase g p ios android gc)
    ∧ Eff.sdkconfigIos p (settingsDir ++ "/GoogleService-Info.plist")
        ∈ setup_firebase g p ios android gc
    ∧ Eff.sdkconfigAndroid p (settingsDir ++ "/google-services.json")
        ∈ setup_firebase g p ios android gc := by
  refine ⟨?_, ?_, ?_, ?_⟩
  · by_cases hios : optTruthy ios = true <;>
      by_cases hgc : gc = true <;>
        simp [setup_firebase, h, hios, hgc, Eff.isAndroidCreate]
  · intro hios
    simp [setup_firebase, h, hios]
  · by_cases hios : optTruthy ios = true <;> simp [setup_firebase, h, hios]
  · by_cases hios : optTruthy ios = true <;> simp [setup_firebase, h, hios]

/-- Witness for the amended C4 at a concrete Android-absent run. -/
theorem setup_firebase_android_absent_witness :
    Eff.createIosApp "com.x.mygame" "hcg-my-game"
      ∈ setup_firebase "My Game" "hcg-my-game" (some "com.x.mygame") none true
    ∧ Eff.sdkconfigIos "hcg-my-game" ("Assets/Settings" ++ "/GoogleService-Info.plist")
      ∈ setup_firebase "My Game" "hcg-my-game" (some "com.x.mygame") none true :=
  ⟨(setup_firebase_android_absent "My Game" "hcg-my-game"
      (some "com.x.mygame") none true rfl).2.1 rfl,
   (setup_firebase_android_absent "My Game" "hcg-my-game"
      (some "com.x.mygame") none true rfl).2.2.1⟩

/-! ### Claim C7 (corrected): runtime check -/

/-- Counterexample to C7 as stated: with node absent (`shutil.which("node")`
is `None`) — one of the "unavailable runtime" conditions the claim covers —
`check_node_version` returns silently and the program proceeds; it does not
print a diagnostic and terminate with non-zero status. -/
theorem check_node_version_absent_proceeds :
    check_node_version none ⟨0, "v18.19.0".toList⟩ false
        = NodeCheckOutcome.proceed
    ∧ NodeCheckOutcome.proceed ≠ NodeCheckOutcome.fatalExit 1 := by
  exact ⟨rfl, by decide⟩

/-- Claim C7 as amended: the program terminates with exit status 1 exactly in
the too-old-with-no-upgrade-path case — node is present, its reported major
version is below 20, and Homebrew is unavailable; when node is entirely
absent, `check_node_version` instead returns and the program proceeds. -/
theorem check_node_version_spec :
    (∀ (p : String) (res : CmdResult) (major : Nat),
        parseVersionMajor (pyStrip res.stdout) = some major →
        major < 20 →
        check_node_version (some p) res false = NodeCheckOutcome.fatalExit 1)
    ∧ (∀ (res : CmdResult) (brew : Bool),
        check_node_version none res brew = NodeCheckOutcome.proceed) := by
  constructor
  · intro p res major hparse hlt
    have hrun : run_capture res false = some (pyStrip res.stdout) := by
      simp [run_capture]
    unfold check_node_version
    rw [hrun]
    cases hv : pyStrip res.stdout with
    | nil =>
      rw [hv] at hparse
      simp [parseVersionMajor] at hparse
    | cons c rest =>
      rw [hv] at hparse
      have hne : ((c :: rest).isEmpty) = false := by simp
      simp only [hne, Bool.false_eq_true, if_false, hparse]
      have h20 : ¬ major ≥ 20 := by omega
      simp [h20]
  · intro res brew
    rfl

/-- Witness for the amended C7: node v18 with no Homebrew is fatal. -/
theorem check_node_version_spec_witness :
    check_node_version (some "/usr/bin/node") ⟨0, "v18.19.0\n".toList⟩ false
      = NodeCheckOutcome.fatalExit 1 :=
  check_node_version_spec.1 "/usr/bin/node" ⟨0, "v18.19.0\n".toList⟩ 18
    (by decide) (by decide)

/-! ### `_ensure_path` lemmas -/

/-- `splitOnColon` never returns the empty list. -/
theorem splitOnColon_ne_nil (l : List Char) : splitOnColon l ≠ [] := by
  induction l with
  | nil => simp [splitOnColon]
  | cons c rest ih =>
    by_cases hc : c = ':'
    · simp [splitOnColon, hc]
    · cases hs : splitOnColon rest with
      | nil => exact absurd hs ih
      | cons p ps => simp [splitOnColon, hc, hs]

/-- Pieces produced by `splitOnColon` contain no colon. -/
theorem splitOnColon_no_colon (l : List Char) :
    ∀ p ∈ splitOnColon l, ':' ∉ p := by
  induction l with
  | nil =>
    intro p hp
    simp [splitOnColon] at hp
    simp [hp]
  | cons c rest ih =>
    intro p hp
    by_cases hc : c = ':'
    · simp [splitOnColon, hc] at hp
      rcases hp with hp | hp
      · simp [hp]
      · exact ih p hp
    · cases hs : splitOnColon rest with
      | nil => exact absurd hs (splitOnColon_ne_nil rest)
      | cons q qs =>
        simp [splitOnColon, hc, hs] at hp
        rcases hp with hp | hp
        · subst hp
          intro hmem
          rcases List.mem_cons.mp hmem with h1 | h1
          · exact hc h1.symm
          · exact ih q (hs ▸ List.mem_cons_self q qs) h1
        · exact ih p (hs ▸ List.mem_cons_of_mem q hp)

/-- A colon-free string splits to itself. -/
theorem splitOnColon_single (l : List Char) (h : ':' ∉ l) :
    splitOnColon l = [l] := by
  induction l with
  | nil => rfl
  | cons c rest ih =>
    have hc : ¬ c = ':' := fun he => h (he ▸ List.mem_cons_self c rest)
    have hrest : ':' ∉ rest := fun hm => h (List.mem_cons_of_mem c hm)
    simp [splitOnColon, hc, ih hrest]

/-- Splitting a colon-free piece glued with a colon peels off the piece. -/
theorem splitOnColon_append (p t : List Char) (h : ':' ∉ p) :
    splitOnColon (p ++ ':' :: t) = p :: splitOnColon t := by
  induction p with
  | nil => simp [splitOnColon]
  | cons c p' ih =>
    have hc : ¬ c = ':' := fun he => h (he ▸ List.mem_cons_self c p')
    have hp' : ':' ∉ p' := fun hm => h (List.mem_cons_of_mem c hm)
    have := ih hp'
    simp only [List.cons_append, splitOnColon, hc, if_false, List.append_eq, this]

/-- `split` is a left inverse of `join` on nonempty lists of colon-free
pieces. -/
theorem splitOnColon_joinColon (ps : List (List Char)) (hne : ps ≠ [])
    (h : ∀ p ∈ ps, ':' ∉ p) : splitOnColon (joinColon ps) = ps := by
  induction ps with
  | nil => exact absurd rfl hne
  | cons p ps' ih =>
    cases ps' with
    | nil =>
      simp [joinColon, splitOnColon_single p (h p (List.mem_cons_self p []))]
    | cons q ps'' =>
      have hp : ':' ∉ p := h p (List.mem_cons_self p (q :: ps''))
      have hrest : ∀ r ∈ q :: ps'', ':' ∉ r :=
        fun r hr => h r (List.mem_cons_of_mem p hr)
      rw [joinColon, splitOnColon_append p _ hp, ih (by simp) hrest]

/-- The `for p in extra` loop only appends: the accumulator is a preserved
initial segment, appended entries are extras not already present, and every
extra is present afterwards. -/
theorem foldl_addIfAbsent_spec (es : List (List Char)) :
    ∀ acc : List (List Char),
      ∃ t, es.foldl addIfAbsent acc = acc ++ t
        ∧ (∀ x ∈ t, x ∈ es ∧ x ∉ acc)
        ∧ (∀ e ∈ es, e ∈ acc ++ t) := by
  induction es with
  | nil =>
    intro acc
    exact ⟨[], by simp, by simp, by simp⟩
  | cons e es' ih =>
    intro acc
    by_cases he : e ∈ acc
    · obtain ⟨t, ht, hmem, hcov⟩ := ih acc
      refine ⟨t, ?_, ?_, ?_⟩
      · simpa [addIfAbsent, he] using ht
      · exact fun x hx => ⟨List.mem_cons_of_mem e (hmem x hx).1, (hmem x hx).2⟩
      · intro a ha
        rcases List.mem_cons.mp ha with h1 | h1
        · exact h1 ▸ List.mem_append_left t he
        · exact hcov a h1
    · obtain ⟨t, ht, hmem, hcov⟩ := ih (acc ++ [e])
      refine ⟨e :: t, ?_, ?_, ?_⟩
      · rw [List.foldl_cons]
        have : addIfAbsent acc e = acc ++ [e] := by simp [addIfAbsent, he]
        rw [this, ht, List.append_assoc]
        rfl
      · intro x hx
        rcases List.mem_cons.mp hx with h1 | h1
        · exact ⟨h1 ▸ List.mem_cons_self e es', h1 ▸ he⟩
        · have := hmem x h1
          refine ⟨List.mem_cons_of_mem e this.1, fun hxa => this.2 ?_⟩
          exact List.mem_append_left [e] hxa
      · intro a ha
        rcases List.mem_cons.mp ha with h1 | h1
        · subst h1
          exact List.mem_append_right acc (List.mem_cons_self a t)
        · have := hcov a h1
          rcases List.mem_append.mp this with h2 | h2
          · rcases List.mem_append.mp h2 with h3 | h3
            · exact List.mem_append_left _ h3
            · rcases List.mem_singleton.mp h3 with rfl
              exact List.mem_append_right acc (List.mem_cons_self a t)
          · exact List.mem_append_right acc (List.mem_cons_of_mem e h2)

/-- If every extra is already present, the loop is the identity. -/
theorem foldl_addIfAbsent_id (es : List (List Char)) :
    ∀ acc : List (List Char), (∀ e ∈ es, e ∈ acc) →
      es.foldl addIfAbsent acc = acc := by
  induction es with
  | nil => intro acc _; rfl
  | cons e es' ih =>
    intro acc h
    have he : e ∈ acc := h e (List.mem_cons_self e es')
    rw [List.foldl_cons]
    have : addIfAbsent acc e = acc := by simp [addIfAbsent, he]
    rw [this]
    exact ih acc (fun x hx => h x (List.mem_cons_of_mem e hx))

/-- Splitting the rebuilt `PATH` recovers exactly the rebuilt entry list
(every entry is colon-free, so the join/split round-trip is lossless). -/
theorem ensure_path_splitOnColon (npm cur : List Char) (h : ':' ∉ npm) :
    splitOnColon (ensure_path npm cur) =
      priorityDirs ++
        (extraDirs npm).foldl addIfAbsent
          ((splitOnColon cur).filter (fun p => decide (p ∉ priorityDirs))) := by
  obtain ⟨t, ht, hmem, _⟩ :=
    foldl_addIfAbsent_spec (extraDirs npm)
      ((splitOnColon cur).filter (fun p => decide (p ∉ priorityDirs)))
  have hdef : ensure_path npm cur =
      joinColon (priorityDirs ++
        (extraDirs npm).foldl addIfAbsent
          ((splitOnColon cur).filter (fun p => decide (p ∉ priorityDirs)))) := rfl
  rw [hdef]
  apply splitOnColon_joinColon
  · simp [priorityDirs]
  · intro p hp
    rcases List.mem_append.mp hp with hP | hF
    · have : p = "/opt/homebrew/bin".toList ∨ p = "/opt/homebrew/sbin".toList := by
        simpa [priorityDirs] using hP
      rcases this with rfl | rfl <;> decide
    · rw [ht] at hF
      rcases List.mem_append.mp hF with hA | hT
      · exact splitOnColon_no_colon cur p (List.mem_of_mem_filter hA)
      · have hx : p = usrLocalBin ∨ p = npm := by
          simpa [extraDirs] using (hmem p hT).1
        rcases hx with rfl | rfl
        · decide
        · exact h

/-! ### Claim C3: layout of the rebuilt `PATH` -/

/-- Claim C3: after one call to `_ensure_path`, the resulting `PATH` parses
into the priority directories in declared order, then the original entries
with priority directories removed, then appended extra directories — each an
extra directory not already present, with every extra directory present
afterwards; in particular the priority directories come first. -/
theorem ensure_path_layout (npm cur : List Char) (h : ':' ∉ npm) :
    ∃ appended,
      splitOnColon (ensure_path npm cur) =
        priorityDirs
          ++ (splitOnColon cur).filter (fun p => decide (p ∉ priorityDirs))
          ++ appended
      ∧ (∀ x ∈ appended, x ∈ extraDirs npm ∧
            x ∉ (splitOnColon cur).filter (fun p => decide (p ∉ priorityDirs)))
      ∧ (∀ e ∈ extraDirs npm,
            e ∈ (splitOnColon cur).filter (fun p => decide (p ∉ priorityDirs))
              ++ appended)
      ∧ (splitOnColon (ensure_path npm cur)).take priorityDirs.length
          = priorityDirs := by
  obtain ⟨t, ht, hmem, hcov⟩ :=
    foldl_addIfAbsent_spec (extraDirs npm)
      ((splitOnColon cur).filter (fun p => decide (p ∉ priorityDirs)))
  refine ⟨t, ?_, hmem, hcov, ?_⟩
  · rw [ensure_path_splitOnColon npm cur h, ht, List.append_assoc]
  · rw [ensure_path_splitOnColon npm cur h]
    exact List.take_left _ _

/-- Witness for C3 at a concrete `PATH`. -/
theorem ensure_path_layout_witness :
    ∃ appended,
      splitOnColon (ensure_path "/root/.npm-global/bin".toList
          "/usr/bin:/bin".toList) =
        priorityDirs
          ++ (splitOnColon "/usr/bin:/bin".toList).filter
              (fun p => decide (p ∉ priorityDirs))
          ++ appended
      ∧ (∀ x ∈ appended, x ∈ extraDirs "/root/.npm-global/bin".toList ∧
            x ∉ (splitOnColon "/usr/bin:/bin".toList).filter
                  (fun p => decide (p ∉ priorityDirs)))
      ∧ (∀ e ∈ extraDirs "/root/.npm-global/bin".toList,
            e ∈ (splitOnColon "/usr/bin:/bin".toList).filter
                  (fun p => decide (p ∉ priorityDirs))
              ++ appended)
      ∧ (splitOnColon (ensure_path "/root/.npm-global/bin".toList
            "/usr/bin:/bin".toList)).take priorityDirs.length
          = priorityDirs :=
  ensure_path_layout "/root/.npm-global/bin".toList "/usr/bin:/bin".toList
    (by decide)

/-! ### Claim C2: idempotence of `_ensure_path` -/

/-- Claim C2: `_ensure_path` is idempotent — for every starting `PATH`
string, a second call returns exactly the `PATH` string the first call
produced (the expanded npm directory is any realistic directory name:
colon-free and not itself a priority directory). -/
theorem ensure_path_idempotent (npm cur : List Char)
    (h1 : ':' ∉ npm) (h2 : npm ∉ priorityDirs) :
    ensure_path npm (ensure_path npm cur) = ensure_path npm cur := by
  obtain ⟨t, ht, hmem, hcov⟩ :=
    foldl_addIfAbsent_spec (extraDirs npm)
      ((splitOnColon cur).filter (fun p => decide (p ∉ priorityDirs)))
  have hsplit : splitOnColon (ensure_path npm cur) =
      priorityDirs ++
        ((splitOnColon cur).filter (fun p => decide (p ∉ priorityDirs)) ++ t) := by
    rw [ensure_path_splitOnColon npm cur h1, ht]
  have houter : ensure_path npm (ensure_path npm cur) =
      joinColon (priorityDirs ++
        (extraDirs npm).foldl addIfAbsent
          ((splitOnColon (ensure_path npm cur)).filter
            (fun p => decide (p ∉ priorityDirs)))) := rfl
  have hfP : priorityDirs.filter (fun p => decide (p ∉ priorityDirs)) = [] := by
    decide
  have hf1 : ((splitOnColon cur).filter
      (fun p => decide (p ∉ priorityDirs))).filter
      (fun p => decide (p ∉ priorityDirs)) =
      (splitOnColon cur).filter (fun p => decide (p ∉ priorityDirs)) := by
    apply List.filter_eq_self.mpr
    intro a ha
    exact (List.mem_filter.mp ha).2
  have hft : t.filter (fun p => decide (p ∉ priorityDirs)) = t := by
    apply List.filter_eq_self.mpr
    intro a ha
    have hx : a = usrLocalBin ∨ a = npm := by
      simpa [extraDirs] using (hmem a ha).1
    rcases hx with rfl | rfl
    · decide
    · exact decide_eq_true h2
  have hfilter : (splitOnColon (ensure_path npm cur)).filter
      (fun p => decide (p ∉ priorityDirs)) =
      (splitOnColon cur).filter (fun p => decide (p ∉ priorityDirs)) ++ t := by
    rw [hsplit, List.filter_append, List.filter_append, hfP, hf1, hft]
    simp
  rw [houter, hfilter, foldl_addIfAbsent_id (extraDirs npm) _ hcov]
  have hrhs : ensure_path npm cur =
      joinColon (priorityDirs ++
        (extraDirs npm).foldl addIfAbsent
          ((splitOnColon cur).filter (fun p => decide (p ∉ priorityDirs)))) := rfl
  rw [hrhs, ht]

/-- Witness for C2 at a concrete `PATH`. -/
theorem ensure_path_idempotent_witness :
    ensure_path "/root/.npm-global/bin".toList
        (ensure_path "/root/.npm-global/bin".toList "/usr/bin:/bin".toList)
      = ensure_path "/root/.npm-global/bin".toList "/usr/bin:/bin".toList :=
  ensure_path_idempotent "/root/.npm-global/bin".toList "/usr/bin:/bin".toList
    (by decide) (by decide)

/-! ### `read_bundle_ids` extraction lemmas -/

/-- A nonempty pattern can only match at an index within the document. -/
theorem headMatch_le_length (pat doc : List Char) (i : Nat) (hpat : pat ≠ [])
    (h : headMatch pat (doc.drop i) = true) : i ≤ doc.length := by
  by_contra hgt
  push_neg at hgt
  rw [List.drop_eq_nil_of_le (le_of_lt hgt)] at h
  cases pat with
  | nil => exact hpat rfl
  | cons p ps => simp [headMatch] at h

/-- `findAfterMarker` at the least occurrence: if the pattern occurs at `i`
and nowhere earlier, the scan returns the document suffix after that
occurrence. -/
theorem findAfterMarker_first (pat : List Char) :
    ∀ (doc : List Char) (i : Nat),
      headMatch pat (doc.drop i) = true →
      (∀ i' < i, headMatch pat (doc.drop i') = false) →
      findAfterMarker pat doc = some (doc.drop (i + pat.length)) := by
  intro doc
  induction doc with
  | nil =>
    intro i h _
    rw [List.drop_nil] at h
    simp [findAfterMarker, h, List.drop_nil]
  | cons c rest ih =>
    intro i h hmin
    cases i with
    | zero =>
      rw [List.drop_zero] at h
      simp [findAfterMarker, h]
    | succ n =>
      have h0 : headMatch pat ((c :: rest).drop 0) = false := hmin 0 (Nat.succ_pos n)
      rw [List.drop_zero] at h0
      rw [List.drop_succ_cons] at h
      have hmin' : ∀ i' < n, headMatch pat (rest.drop i') = false := by
        intro i' hi'
        have := hmin (i' + 1) (by omega)
        rwa [List.drop_succ_cons] at this
      have e : n + 1 + pat.length = (n + pat.length) + 1 := by omega
      simp only [findAfterMarker, h0, Bool.false_eq_true, if_false]
      rw [e, List.drop_succ_cons]
      exact ih n h hmin'

/-- `findAfterMarker` finds nothing when the pattern occurs nowhere. -/
theorem findAfterMarker_of_no_match (pat : List Char) :
    ∀ doc : List Char,
      (∀ i, headMatch pat (doc.drop i) = false) →
      findAfterMarker pat doc = none := by
  intro doc
  induction doc with
  | nil =>
    intro h
    have h0 := h 0
    rw [List.drop_nil] at h0
    simp [findAfterMarker, h0]
  | cons c rest ih =>
    intro h
    have h0 := h 0
    rw [List.drop_zero] at h0
    simp only [findAfterMarker, h0, Bool.false_eq_true, if_false]
    refine ih (fun i => ?_)
    have := h (i + 1)
    rwa [List.drop_succ_cons] at this

/-- `findKeyCapture` at the least qualifying index: the lazy `.*?` of the
regex yields the capture of the first position where the key pattern
matches. -/
theorem findKeyCapture_first (key : List Char) :
    ∀ (s : List Char) (k : Nat),
      keyQual key (s.drop k) = true →
      (∀ k' < k, keyQual key (s.drop k') = false) →
      findKeyCapture key s = some (keyCapture key (s.drop k)) := by
  intro s
  induction s with
  | nil =>
    intro k h _
    rw [List.drop_nil] at h
    simp [findKeyCapture, h, List.drop_nil]
  | cons c rest ih =>
    intro k h hmin
    cases k with
    | zero =>
      rw [List.drop_zero] at h
      simp [findKeyCapture, h]
    | succ n =>
      have h0 : keyQual key ((c :: rest).drop 0) = false := hmin 0 (Nat.succ_pos n)
      rw [List.drop_zero] at h0
      rw [List.drop_succ_cons] at h
      have hmin' : ∀ k' < n, keyQual key (rest.drop k') = false := by
        intro k' hk'
        have := hmin (k' + 1) (by omega)
        rwa [List.drop_succ_cons] at this
      simp only [findKeyCapture, h0, Bool.false_eq_true, if_false]
      rw [List.drop_succ_cons]
      exact ih n h hmin'

/-- A list whose head fails the predicate is unchanged by `dropWhile`. -/
theorem dropWhile_eq_self_of_not (p : Char → Bool) (l : List Char)
    (h : ∀ c ∈ l, p c = false) : l.dropWhile p = l := by
  cases l with
  | nil => rfl
  | cons c rest =>
    have hc := h c (List.mem_cons_self c rest)
    simp [List.dropWhile_cons, hc]

/-- `str.strip` leaves a whitespace-free string unchanged. -/
theorem pyStrip_eq_self (l : List Char) (h : ∀ c ∈ l, pySpace c = false) :
    pyStrip l = l := by
  unfold pyStrip
  rw [dropWhile_eq_self_of_not pySpace l h]
  rw [dropWhile_eq_self_of_not pySpace l.reverse
    (fun c hc => h c (List.mem_reverse.mp hc))]
  exact List.reverse_reverse l

/-- Every element of `takeWhile p l` satisfies `p`. -/
theorem mem_takeWhile_sat (p : Char → Bool) :
    ∀ (l : List Char) (c : Char), c ∈ l.takeWhile p → p c = true := by
  intro l
  induction l with
  | nil =>
    intro c hc
    simp [List.takeWhile] at hc
  | cons a rest ih =>
    intro c hc
    by_cases ha : p a = true
    · rw [List.takeWhile_cons, if_pos ha] at hc
      rcases List.mem_cons.mp hc with rfl | hc'
      · exact ha
      · exact ih c hc'
    · rw [List.takeWhile_cons, if_neg ha] at hc
      simp at hc

/-- Word and dot characters are not whitespace. -/
theorem pyWordDot_not_space (c : Char) (h : pyWordDot c = true) :
    pySpace c = false := by
  cases hs : pySpace c with
  | false => rfl
  | true =>
    exfalso
    have h6 : c = ' ' ∨ c = '\t' ∨ c = '\n' ∨ c = '\r' ∨ c = '\x0b' ∨ c = '\x0c' := by
      simpa [pySpace, or_assoc] using hs
    rcases h6 with rfl | rfl | rfl | rfl | rfl | rfl <;> exact absurd h (by decide)

/-- The captured identifier is whitespace-free, so `strip` is the identity
on it. -/
theorem pyStrip_keyCapture (key s : List Char) :
    pyStrip (keyCapture key s) = keyCapture key s := by
  apply pyStrip_eq_self
  intro c hc
  unfold keyCapture at hc
  exact pyWordDot_not_space c (mem_takeWhile_sat pyWordDot _ c hc)

/-! ### Claim C1: the bundle-id extractor -/

/-- Claim C1: for any document in which the `applicationIdentifier:` marker
occurs exactly once and each platform key occurs after it followed by
optional whitespace and a nonempty word/dot run, the parsing step of
`read_bundle_ids` returns both identifiers, each the capture of the first
such match after the marker; and for any document in which the marker does
not occur at all, it returns both identifiers absent. -/
theorem read_bundle_ids_parse_spec :
    (∀ (content : List Char) (i jp ja : Nat),
        occursAt appIdMarker content i →
        (∀ i' ≤ content.length, occursAt appIdMarker content i' → i' = i) →
        i + appIdMarker.length ≤ jp →
        qualAt iPhoneKey content jp →
        (∀ j' < jp, i + appIdMarker.length ≤ j' → ¬ qualAt iPhoneKey content j') →
        i + appIdMarker.length ≤ ja →
        qualAt androidKey content ja →
        (∀ j' < ja, i + appIdMarker.length ≤ j' → ¬ qualAt androidKey content j') →
        read_bundle_ids_parse content =
          (some (keyCapture iPhoneKey (content.drop jp)),
           some (keyCapture androidKey (content.drop ja))))
    ∧ (∀ content : List Char,
        (∀ i ≤ content.length, ¬ occursAt appIdMarker content i) →
        read_bundle_ids_parse content = (none, none)) := by
  constructor
  · intro content i jp ja hocc huniq hjp1 hjp2 hjp3 hja1 hja2 hja3
    have hminM : ∀ i' < i, headMatch appIdMarker (content.drop i') = false := by
      intro i' hi'
      cases hh : headMatch appIdMarker (content.drop i') with
      | false => rfl
      | true =>
        have hle : i' ≤ content.length :=
          headMatch_le_length appIdMarker content i' (by decide) hh
        have := huniq i' hle hh
        omega
    have hfind : findAfterMarker appIdMarker content
        = some (content.drop (i + appIdMarker.length)) :=
      findAfterMarker_first appIdMarker content i hocc hminM
    have hkey : ∀ (key : List Char) (j : Nat),
        i + appIdMarker.length ≤ j →
        qualAt key content j →
        (∀ j' < j, i + appIdMarker.length ≤ j' → ¬ qualAt key content j') →
        extractId content key = some (keyCapture key (content.drop j)) := by
      intro key j hj hq hmin
      unfold extractId
      rw [hfind]
      have e : i + appIdMarker.length + (j - (i + appIdMarker.length)) = j := by
        omega
      have h1 : keyQual key
          ((content.drop (i + appIdMarker.length)).drop
            (j - (i + appIdMarker.length))) = true := by
        rw [List.drop_drop, e]
        exact hq
      have h2 : ∀ k' < j - (i + appIdMarker.length),
          keyQual key ((content.drop (i + appIdMarker.length)).drop k') = false := by
        intro k' hk'
        rw [List.drop_drop]
        cases hh : keyQual key (content.drop (i + appIdMarker.length + k')) with
        | false => rfl
        | true =>
          exact absurd hh
            (hmin (i + appIdMarker.length + k') (by omega) (by omega))
      show Option.map pyStrip
          (findKeyCapture key (content.drop (i + appIdMarker.length)))
        = some (keyCapture key (content.drop j))
      rw [findKeyCapture_first key _ _ h1 h2]
      rw [Option.map_some']
      rw [List.drop_drop, e, pyStrip_keyCapture]
    have hi := hkey iPhoneKey jp hjp1 hjp2 hjp3
    have ha := hkey androidKey ja hja1 hja2 hja3
    unfold read_bundle_ids_parse
    rw [hi, ha]
  · intro content hno
    have hfalse : ∀ i, headMatch appIdMarker (content.drop i) = false := by
      intro i
      cases hh : headMatch appIdMarker (content.drop i) with
      | false => rfl
      | true =>
        have hle := headMatch_le_length appIdMarker content i (by decide) hh
        exact absurd hh (hno i hle)
    have hfind := findAfterMarker_of_no_match appIdMarker content hfalse
    unfold read_bundle_ids_parse extractId
    rw [hfind]

/-- Witness for C1: a concrete settings document with both keys after one
marker (positions: marker at 0, `iPhone:` at 25, `Android:` at 48), and a
concrete document with no marker at all. -/
theorem read_bundle_ids_parse_spec_witness :
    read_bundle_ids_parse
        "applicationIdentifier:\n  iPhone: com.x.mygame\n  Android: com.x.mygame".toList =
      (some (keyCapture iPhoneKey
        ("applicationIdentifier:\n  iPhone: com.x.mygame\n  Android: com.x.mygame".toList.drop 25)),
       some (keyCapture androidKey
        ("applicationIdentifier:\n  iPhone: com.x.mygame\n  Android: com.x.mygame".toList.drop 48)))
    ∧ read_bundle_ids_parse "PlayerSettings:\n  productName: Foo".toList
        = (none, none) :=
  ⟨read_bundle_ids_parse_spec.1
      "applicationIdentifier:\n  iPhone: com.x.mygame\n  Android: com.x.mygame".toList
      0 25 48 (by decide) (by decide) (by decide) (by decide) (by decide)
      (by decide) (by decide) (by decide),
   read_bundle_ids_parse_spec.2 "PlayerSettings:\n  productName: Foo".toList
      (by decide)⟩
